import Mathlib

/-
Verification of the BestMan_Pybullet base-navigation and arm-trajectory layer
(RoboticsToolBox/Bestman_sim.py) against its natural-language specification.

The Python code is shallowly embedded over exact real arithmetic: pure numeric
helpers become Lean functions on ℝ, the mutable robot/engine state becomes an
explicit record threaded through each method, engine side effects
(p.resetBasePositionAndOrientation, client.run, joint commands, prints) are
recorded in an event trace, and unbounded while loops take an explicit fuel
argument, returning none when the fuel is exhausted.  Python's float modulo
`x % m` (result carrying the sign of the divisor) is modelled by `fmod`.
-/

open Real

namespace BestmanSim

/-- A 3-component position vector, modelling a pybullet position triple. -/
@[ext]
structure Vec3 where
  x : ℝ
  y : ℝ
  z : ℝ

/-- A quaternion in pybullet component order [x, y, z, w]. -/
@[ext]
structure Quat where
  x : ℝ
  y : ℝ
  z : ℝ
  w : ℝ

/-- Modelled from the spec: the `Pose` value object (RoboticsToolBox/Pose.py is
not part of the source snapshot; spec section 3 describes it as a position in ℝ³
plus a quaternion orientation, with `x`/`y` accessors used by the navigator). -/
@[ext]
structure Pose where
  position : Vec3
  orientation : Quat

/-- Accessor `pose.x` used by `sim_move_base_to_waypoint`. -/
def Pose.x (p : Pose) : ℝ := p.position.x

/-- Accessor `pose.y` used by `sim_move_base_to_waypoint`. -/
def Pose.y (p : Pose) : ℝ := p.position.y

/-- Python float modulo `x % m`: the representative of `x` modulo `m` with the
sign of the divisor, i.e. `x - m * ⌊x / m⌋`.  For `m > 0` the result lies in
`[0, m)`. -/
noncomputable def fmod (x m : ℝ) : ℝ := x - m * ⌊x / m⌋

/-- The local helper `angle_to_quaternion` of `Bestman_sim.sim_rotate_base`:
`[0, 0, sin(yaw/2), cos(yaw/2)]`. -/
noncomputable def angle_to_quaternion (yaw : ℝ) : Quat :=
  ⟨0, 0, Real.sin (yaw / 2), Real.cos (yaw / 2)⟩

/-- The local helper `shortest_angular_distance` of `Bestman_sim.sim_rotate_base`:
`(to_angle - from_angle + pi) % (2 * pi) - pi` with Python float modulo. -/
noncomputable def shortest_angular_distance (from_angle to_angle : ℝ) : ℝ :=
  fmod (to_angle - from_angle + π) (2 * π) - π

/-- The yaw normalisation inside `sim_rotate_base`'s gradual loop:
`(yaw + pi) % (2*pi) - pi`. -/
noncomputable def normalize_yaw (y : ℝ) : ℝ := fmod (y + π) (2 * π) - π

/-- The C-library `atan2(y, x)` used via `math.atan2`, in terms of `arctan`. -/
noncomputable def atan2 (y x : ℝ) : ℝ :=
  if 0 < x then Real.arctan (y / x)
  else if x < 0 then
    (if 0 ≤ y then Real.arctan (y / x) + π else Real.arctan (y / x) - π)
  else (if 0 < y then π / 2 else if y < 0 then -(π / 2) else 0)

/-- Modelled from the spec: the yaw component of the engine's
`p.getEulerFromQuaternion` (the physics engine is an external collaborator;
spec section 3 requires quaternion/Euler conversions to round-trip).  Standard
ZYX-convention yaw: `atan2(2(wz + xy), 1 - 2(y² + z²))`. -/
noncomputable def eulerYaw (q : Quat) : ℝ :=
  atan2 (2 * (q.w * q.z + q.x * q.y)) (1 - 2 * (q.y ^ 2 + q.z ^ 2))

/-- An engine/print side effect issued by the control layer.  Each constructor
records one call into the pybullet client or one severity-coded print:
`runStep` is `client.run()`, `runTicks n` is `client.run(n)`, `setBasePose` and
`setArmPose` are `p.resetBasePositionAndOrientation` on the base and arm body,
`jointCmd` is `p.setJointMotorControlArray` on the arm joints, `debugLine` is
`p.addUserDebugLine`, and `warn`/`info` are the coloured warning/info prints. -/
inductive Ev
  | runStep
  | runTicks (n : ℕ)
  | setBasePose (pos : Vec3) (orn : Quat)
  | setArmPose (pos : Vec3) (orn : Quat)
  | jointCmd (vals : List ℝ)
  | debugLine (a b : Vec3)
  | warn
  | info

/-- Recogniser for `client.run()` events. -/
def isRunStep : Ev → Bool
  | Ev.runStep => true
  | _ => false

/-- Recogniser for joint-command events. -/
def isJointCmd : Ev → Bool
  | Ev.jointCmd _ => true
  | _ => false

/-- Modelled from the spec: the state of the `PIDController` class (package
`Controller`, referenced by `Bestman_sim` but absent from the source snapshot).
Spec section 3: `{Kp, Ki, Kd, setpoint, integral_accumulator, previous_error}`. -/
structure PIDController where
  Kp : ℝ
  Ki : ℝ
  Kd : ℝ
  setpoint : ℝ
  integral : ℝ
  prev_error : ℝ

/-- Modelled from the spec: `set_goal(new_setpoint)` overwrites `setpoint`
without resetting the accumulator (spec section 4.1). -/
def PIDController.set_goal (st : PIDController) (g : ℝ) : PIDController :=
  { st with setpoint := g }

/-- Modelled from the spec: `calculate(measurement) -> output` (spec section
4.1): `error = setpoint - measurement`; `integral_accumulator += error`;
`derivative = error - previous_error`;
`output = Kp*error + Ki*integral_accumulator + Kd*derivative`;
`previous_error = error`.  Returns the output and the mutated state. -/
def PIDController.calculate (st : PIDController) (measurement : ℝ) :
    ℝ × PIDController :=
  let error := st.setpoint - measurement
  let integral := st.integral + error
  let derivative := error - st.prev_error
  let output := st.Kp * error + st.Ki * integral + st.Kd * derivative
  (output, { st with integral := integral, prev_error := error })

/-- The mutable state of a `Bestman_sim` instance together with the engine
state it reads and writes: base and arm body poses, the bookkeeping attributes
`current_base_yaw`, `base_rotated` and `target_distance`, the PID controller,
and the engine-side arm state abstracted as the current joint values and the
current end-effector pose (the physics that evolves them under position control
is engine-internal and not modelled; no claim depends on it). -/
structure RobotState where
  basePos : Vec3
  baseOrn : Quat
  armPos : Vec3
  armOrn : Quat
  arm_place_height : ℝ
  current_base_yaw : ℝ
  base_rotated : Bool
  target_distance : ℝ
  pid : PIDController
  armJoints : List ℝ
  eePose : Pose

/-- `Bestman_sim.sim_sync_base_arm_pose`: reset the arm body to the base's
(x, y) at `arm_place_height` with the base's orientation. -/
def sim_sync_base_arm_pose (st : RobotState) : RobotState × List Ev :=
  let pos : Vec3 := ⟨st.basePos.x, st.basePos.y, st.arm_place_height⟩
  ({ st with armPos := pos, armOrn := st.baseOrn },
   [Ev.setArmPose pos st.baseOrn])

/-- One iteration of the gradual while loop of `sim_rotate_base`, executed when
`|angle_diff| > step_size`: step `current_base_yaw` by `step_size` toward the
target (using the sign of the current `angle_diff`), normalise it, apply the
corresponding quaternion to the base body, sync the arm, and run the engine. -/
noncomputable def rotate_step (target_yaw step_size : ℝ) (st : RobotState) :
    RobotState × List Ev :=
  let y1 := if 0 < shortest_angular_distance st.current_base_yaw target_yaw
            then st.current_base_yaw + step_size
            else st.current_base_yaw - step_size
  let y2 := normalize_yaw y1
  let orn := angle_to_quaternion y2
  let st1 := { st with current_base_yaw := y2, baseOrn := orn }
  let sync := sim_sync_base_arm_pose st1
  (sync.1, Ev.setBasePose st.basePos orn :: sync.2 ++ [Ev.runStep])

/-- The gradual while loop of `sim_rotate_base`, with fuel: loop while
`|shortest_angular_distance(current_base_yaw, target_yaw)| > step_size`,
returning `none` if the fuel is exhausted before the condition fails. -/
noncomputable def rotate_loop (target_yaw step_size : ℝ) :
    ℕ → RobotState → Option (RobotState × List Ev)
  | 0, st =>
    if step_size < |shortest_angular_distance st.current_base_yaw target_yaw|
    then none else some (st, [])
  | n + 1, st =>
    if step_size < |shortest_angular_distance st.current_base_yaw target_yaw|
    then
      let step := rotate_step target_yaw step_size st
      (rotate_loop target_yaw step_size n step.1).map fun r =>
        (r.1, step.2 ++ r.2)
    else some (st, [])

/-- `Bestman_sim.sim_rotate_base`: the gradual branch runs the while loop, then
snaps the orientation exactly to `target_yaw`, syncs the arm, stores
`current_base_yaw = target_yaw` and runs the engine once; the non-gradual
branch applies the target orientation at once, syncs, and runs 5 ticks,
leaving `current_base_yaw` untouched. -/
noncomputable def sim_rotate_base (target_yaw : ℝ) (gradual : Bool)
    (step_size : ℝ) (fuel : ℕ) (st : RobotState) :
    Option (RobotState × List Ev) :=
  if gradual then
    (rotate_loop target_yaw step_size fuel st).map fun r =>
      let orn := angle_to_quaternion target_yaw
      let st2 := { r.1 with baseOrn := orn }
      let sync := sim_sync_base_arm_pose st2
      let st3 := { sync.1 with current_base_yaw := target_yaw }
      (st3, r.2 ++ Ev.setBasePose r.1.basePos orn :: sync.2 ++ [Ev.runStep])
  else
    let orn := angle_to_quaternion target_yaw
    let st1 := { st with baseOrn := orn }
    let sync := sim_sync_base_arm_pose st1
    some (sync.1, Ev.setBasePose st.basePos orn :: sync.2 ++ [Ev.runTicks 5])

/-- `Bestman_sim.sim_action`: move the base by `output` along the heading read
back from the base body's own orientation quaternion, leaving `z` and the
orientation unchanged, then sync the arm. -/
noncomputable def sim_action (output : ℝ) (st : RobotState) :
    RobotState × List Ev :=
  let yaw := eulerYaw st.baseOrn
  let newPos : Vec3 := ⟨st.basePos.x + output * Real.cos yaw,
                        st.basePos.y + output * Real.sin yaw,
                        st.basePos.z⟩
  let st1 := { st with basePos := newPos }
  let sync := sim_sync_base_arm_pose st1
  (sync.1, Ev.setBasePose newPos st.baseOrn :: sync.2)

/-- The Euclidean distance computed at the top of the waypoint loop:
`math.sqrt((target.y - y)**2 + (target.x - x)**2)`. -/
noncomputable def base_dist (wp : Pose) (st : RobotState) : ℝ :=
  Real.sqrt ((wp.y - st.basePos.y) ^ 2 + (wp.x - st.basePos.x) ^ 2)

/-- The rotation step of one waypoint-loop iteration: rotate the base toward
`yaw` and set the `base_rotated` flag if it is not yet set (the
`if not self.base_rotated` guard); otherwise do nothing. -/
noncomputable def move_iter_rot (yaw : ℝ) (rfuel : ℕ) (st : RobotState) :
    Option (RobotState × List Ev) :=
  if st.base_rotated then some (st, [])
  else (sim_rotate_base yaw true 0.02 rfuel st).map fun r =>
    ({ r.1 with base_rotated := true }, r.2)

/-- The PID lines of one waypoint-loop iteration:
`set_goal(target_distance)` followed by `calculate(distance)`. -/
noncomputable def iter_pid (wp : Pose) (st : RobotState) : ℝ × PIDController :=
  (st.pid.set_goal st.target_distance).calculate (base_dist wp st)

/-- One iteration of the while loop of `sim_move_base_to_waypoint`, executed
when `distance ≥ threshold`: re-send the PID goal, compute the PID output,
rotate toward the waypoint if the base has not been rotated yet in this call,
translate by `-output`, and run the engine when `cnt % 20 == 0`. -/
noncomputable def move_iter (wp : Pose) (rfuel : ℕ) (cnt : ℕ) (st : RobotState) :
    Option (RobotState × List Ev) :=
  let c := iter_pid wp st
  let st1 := { st with pid := c.2 }
  let yaw := atan2 (wp.y - st.basePos.y) (wp.x - st.basePos.x)
  (move_iter_rot yaw rfuel st1).map fun r =>
    let act := sim_action (-c.1) r.1
    (act.1, r.2 ++ act.2 ++ if cnt % 20 = 0 then [Ev.runStep] else [])

/-- The value of a waypoint-loop iteration taken from a state whose
`base_rotated` flag is already set: PID update, then translation only, plus
the periodic engine step when `cnt % 20 == 0`. -/
noncomputable def move_iter_tr (wp : Pose) (cnt : ℕ) (st : RobotState) :
    RobotState × List Ev :=
  let c := iter_pid wp st
  let act := sim_action (-c.1) { st with pid := c.2 }
  (act.1, act.2 ++ if cnt % 20 = 0 then [Ev.runStep] else [])

/-- The while loop of `sim_move_base_to_waypoint` with fuel, threading the
iteration counter `cnt` (which starts at 1) and returning the final counter
value; exits via `break` as soon as `distance < threshold`. -/
noncomputable def move_loop (wp : Pose) (threshold : ℝ) (rfuel : ℕ) :
    ℕ → ℕ → RobotState → Option (RobotState × List Ev × ℕ)
  | 0, cnt, st =>
    if base_dist wp st < threshold then some (st, [], cnt) else none
  | n + 1, cnt, st =>
    if base_dist wp st < threshold then some (st, [], cnt)
    else (move_iter wp rfuel cnt st).bind fun r =>
      (move_loop wp threshold rfuel n (cnt + 1) r.1).map fun r2 =>
        (r2.1, r.2 ++ r2.2.1, r2.2.2)

/-- `Bestman_sim.sim_move_base_to_waypoint`: reset `target_distance` to 0 and
`base_rotated` to False, run the while loop from `cnt = 1`, and run the engine
once unconditionally after the loop exits. -/
noncomputable def sim_move_base_to_waypoint (wp : Pose) (threshold : ℝ)
    (rfuel fuel : ℕ) (st : RobotState) : Option (RobotState × List Ev) :=
  let st0 := { st with target_distance := 0, base_rotated := false }
  (move_loop wp threshold rfuel fuel 1 st0).map fun r =>
    (r.1, r.2.1 ++ [Ev.runStep])

/-- The number of executed iterations of the waypoint loop whose
`if not self.base_rotated` guard is taken, i.e. the number of invocations of
`sim_rotate_base` during one `sim_move_base_to_waypoint` call; defined by the
same recursion as `move_loop`. -/
noncomputable def rot_invocations (wp : Pose) (threshold : ℝ) (rfuel : ℕ) :
    ℕ → ℕ → RobotState → ℕ
  | 0, _, _ => 0
  | n + 1, cnt, st =>
    if base_dist wp st < threshold then 0
    else (if st.base_rotated then 0 else 1) +
      match move_iter wp rfuel cnt st with
      | none => 0
      | some (st1, _) => rot_invocations wp threshold rfuel n (cnt + 1) st1

/-- `Bestman_sim.sim_calculate_nav_error`: Euclidean norm of the difference
between the current base position and the goal position. -/
noncomputable def sim_calculate_nav_error (goal : Pose) (st : RobotState) : ℝ :=
  Real.sqrt ((st.basePos.x - goal.position.x) ^ 2 +
    (st.basePos.y - goal.position.y) ^ 2 +
    (st.basePos.z - goal.position.z) ^ 2)

/-- The path loop of `sim_navigate_base`: move to each waypoint (with the
waypoint-loop default threshold 0.01 — `sim_navigate_base` does not forward its
own threshold), then optionally draw a debug line from the previous path point;
`prev = none` on the first index (the `i != 0` guard). -/
noncomputable def nav_path_loop (goalOrn : Quat) (enable_plot : Bool)
    (rfuel wfuel : ℕ) :
    List (ℝ × ℝ) → Option (ℝ × ℝ) → RobotState → Option (RobotState × List Ev)
  | [], _, st => some (st, [])
  | pt :: rest, prev, st =>
    (sim_move_base_to_waypoint ⟨⟨pt.1, pt.2, 0⟩, goalOrn⟩ 0.01 rfuel wfuel st).bind
      fun r =>
        let plotEvs :=
          match prev with
          | some fp =>
            if enable_plot then [Ev.debugLine ⟨fp.1, fp.2, 0⟩ ⟨pt.1, pt.2, 0⟩]
            else []
          | none => []
        (nav_path_loop goalOrn enable_plot rfuel wfuel rest (some pt) r.1).map
          fun r2 => (r2.1, r.2 ++ plotEvs ++ r2.2)

/-- `Bestman_sim.sim_navigate_base`: follow the path point by point, then
rotate gradually to the goal's yaw, run 10 ticks, compute the navigation error
and print a warning when it is `≥ threshold`, then print the closing info
message.  The Python function returns `None` on every path (warning or not);
completion is `some`, and `none` only models fuel exhaustion in an inner loop. -/
noncomputable def sim_navigate_base (goal : Pose) (path : List (ℝ × ℝ))
    (threshold : ℝ) (enable_plot : Bool) (rfuel wfuel : ℕ) (st : RobotState) :
    Option (RobotState × List Ev) :=
  (nav_path_loop goal.orientation enable_plot rfuel wfuel path none st).bind
    fun r =>
      (sim_rotate_base (eulerYaw goal.orientation) true 0.02 rfuel r.1).map
        fun r2 =>
          let err := sim_calculate_nav_error goal r2.1
          (r2.1, r.2 ++ r2.2 ++ [Ev.runTicks 10] ++
            (if threshold ≤ err then [Ev.warn] else []) ++ [Ev.info])

/-- The quaternion dot product. -/
def qdot (p q : Quat) : ℝ := p.x * q.x + p.y * q.y + p.z * q.z + p.w * q.w

/-- A unit quaternion (the spec's data-model invariant on orientations). -/
def unit_quat (q : Quat) : Prop := q.x ^ 2 + q.y ^ 2 + q.z ^ 2 + q.w ^ 2 = 1

/-- Modelled from the spec: the engine's `p.getQuaternionSlerp` (external
collaborator; spec glossary: "spherical linear interpolation between two
orientations (quaternions)").  Standard slerp
`(sin((1-t)θ)·q0 + sin(tθ)·q1) / sin θ` with `θ = arccos(q0·q1)`, returning
`q0` in the degenerate case `sin θ = 0` (coincident or antipodal inputs). -/
noncomputable def getQuaternionSlerp (q0 q1 : Quat) (t : ℝ) : Quat :=
  let theta := Real.arccos (qdot q0 q1)
  if Real.sin theta = 0 then q0
  else
    let s0 := Real.sin ((1 - t) * theta) / Real.sin theta
    let s1 := Real.sin (t * theta) / Real.sin theta
    ⟨s0 * q0.x + s1 * q1.x, s0 * q0.y + s1 * q1.y,
     s0 * q0.z + s1 * q1.z, s0 * q0.w + s1 * q1.w⟩

/-- `np.linspace(0, 1, steps)`: sample `i` is `i / (steps - 1)`. -/
noncomputable def linspace01 (steps : ℕ) : List ℝ :=
  (List.range steps).map fun i => (i : ℝ) / ((steps : ℝ) - 1)

/-- The position interpolation of `sim_move_end_effector_to_goal_pose`:
`(1 - t) * start + t * goal`, componentwise. -/
noncomputable def lerp_vec (a b : Vec3) (t : ℝ) : Vec3 :=
  ⟨(1 - t) * a.x + t * b.x, (1 - t) * a.y + t * b.y, (1 - t) * a.z + t * b.z⟩

/-- The interpolated Cartesian path of `sim_move_end_effector_to_goal_pose`:
for each `t` in `np.linspace(0, 1, steps)`, position by lerp and orientation
by slerp between the start pose and the goal pose. -/
noncomputable def interp_poses (startPose goal : Pose) (steps : ℕ) : List Pose :=
  (linspace01 steps).map fun t =>
    ⟨lerp_vec startPose.position goal.position t,
     getQuaternionSlerp startPose.orientation goal.orientation t⟩

/-- `Bestman_sim.sim_calculate_IK_error`: Euclidean norm of the difference
between the current end-effector position and the goal position. -/
noncomputable def sim_calculate_IK_error (goal : Pose) (st : RobotState) : ℝ :=
  Real.sqrt ((st.eePose.position.x - goal.position.x) ^ 2 +
    (st.eePose.position.y - goal.position.y) ^ 2 +
    (st.eePose.position.z - goal.position.z) ^ 2)

/-- `Bestman_sim.sim_move_arm_to_joint_values`: command the arm joints under
position control and run 40 ticks (the convergence-polling loop in the source
is commented out). -/
def sim_move_arm_to_joint_values (vals : List ℝ) (st : RobotState) :
    RobotState × List Ev :=
  (st, [Ev.jointCmd vals, Ev.runTicks 40])

/-- `Bestman_sim.sim_move_end_effector_to_goal_pose`: command the joints for
each interpolated pose (inverse kinematics is the engine's external solver,
abstracted as the function argument `ik`), then warn when the final positional
IK error is `≥ threshold` and print the closing info message. -/
noncomputable def sim_move_end_effector_to_goal_pose (ik : Pose → List ℝ)
    (goal : Pose) (steps : ℕ) (threshold : ℝ) (st : RobotState) :
    RobotState × List Ev :=
  let evs := (interp_poses st.eePose goal steps).flatMap fun pose =>
    [Ev.jointCmd (ik pose), Ev.runTicks 40]
  let err := sim_calculate_IK_error goal st
  (st, evs ++ (if threshold ≤ err then [Ev.warn] else []) ++ [Ev.info])

/-- The for loop of `sim_execute_trajectory`: command each joint-angle vector
in order; `front` is the end-effector position recorded by the previous
iteration (`none` at index 0, matching the `i != 0` guard on debug lines). -/
noncomputable def exec_traj_loop (enable_plot : Bool) (st : RobotState) :
    List (List ℝ) → Option Vec3 → List Ev
  | [], _ => []
  | jv :: rest, front =>
    (sim_move_arm_to_joint_values jv st).2 ++
    (match front with
     | some fp => if enable_plot then [Ev.debugLine fp st.eePose.position] else []
     | none => []) ++
    exec_traj_loop enable_plot st rest (some st.eePose.position)

/-- `Bestman_sim.sim_execute_trajectory`: run the command loop, run 40 ticks,
read the current joint values, then compare them against `trajectory[-1]`.
On an empty trajectory the subscript `trajectory[-1]` raises `IndexError`;
this is modelled by `Except.error` carrying the events already issued. -/
noncomputable def sim_execute_trajectory (trajectory : List (List ℝ))
    (threshold : ℝ) (enable_plot : Bool) (st : RobotState) :
    Except (List Ev) (RobotState × List Ev) :=
  let evs1 := exec_traj_loop enable_plot st trajectory none ++ [Ev.runTicks 40]
  match trajectory.getLast? with
  | none => Except.error evs1
  | some lastv =>
    let diffs := (st.armJoints.zip lastv).map fun p => |p.1 - p.2|
    let greater_num := (diffs.filter fun d => decide (threshold < d)).length
    Except.ok (st, evs1 ++ (if 0 < greater_num then [Ev.warn] else []) ++ [Ev.info])

/-- The identity quaternion, `angle_to_quaternion 0` evaluated. -/
def q_id : Quat := ⟨0, 0, 0, 1⟩

/-- A fresh PID state with `Kp = 1, Ki = 0, Kd = 0, setpoint = 0`. -/
def pid_ex : PIDController := ⟨1, 0, 0, 0, 0, 0⟩

/-- A concrete robot state: base at the origin facing yaw 0. -/
def stEx : RobotState :=
  ⟨⟨0, 0, 0⟩, q_id, ⟨0, 0, 0⟩, q_id, 0, 0, false, 0, pid_ex, [], ⟨⟨0, 0, 0⟩, q_id⟩⟩

/-- `stEx` with the `base_rotated` flag already set. -/
def stT : RobotState := { stEx with base_rotated := true }

/-- A concrete waypoint one metre ahead of `stEx` along the x axis. -/
def wpEx : Pose := ⟨⟨1, 0, 0⟩, q_id⟩

/-- A concrete navigation goal five metres ahead of `stEx` along the x axis. -/
def gEx : Pose := ⟨⟨5, 0, 0⟩, q_id⟩

/-- The PID state after one `calculate 1` call from `pid_ex`. -/
def pidF : PIDController := ⟨1, 0, 0, 0, -1, -1⟩

/-- The state of the rotation branch of iteration 1 of the waypoint loop on
`stEx` toward `wpEx`: base rotated toward yaw 0 and flag set. -/
def stRotF : RobotState :=
  ⟨⟨0, 0, 0⟩, q_id, ⟨0, 0, 0⟩, q_id, 0, 0, true, 0, pidF, [], ⟨⟨0, 0, 0⟩, q_id⟩⟩

/-- The events of the rotation branch of iteration 1 of the waypoint loop on
`stEx` toward `wpEx`. -/
def trRotF : List Ev :=
  [Ev.setBasePose ⟨0, 0, 0⟩ q_id, Ev.setArmPose ⟨0, 0, 0⟩ q_id, Ev.runStep]

/-- The state after iteration 1 of the waypoint loop on `stEx` toward `wpEx`:
the base reached (1, 0). -/
def stFex : RobotState :=
  ⟨⟨1, 0, 0⟩, q_id, ⟨1, 0, 0⟩, q_id, 0, 0, true, 0, pidF, [], ⟨⟨0, 0, 0⟩, q_id⟩⟩

/-- The translation events of iteration 1 of the waypoint loop on `stEx`. -/
def trT : List Ev :=
  [Ev.setBasePose ⟨1, 0, 0⟩ q_id, Ev.setArmPose ⟨1, 0, 0⟩ q_id]

/-- The full event list of iteration 1 of the waypoint loop on `stEx`. -/
def trFex : List Ev :=
  [Ev.setBasePose ⟨0, 0, 0⟩ q_id, Ev.setArmPose ⟨0, 0, 0⟩ q_id, Ev.runStep,
   Ev.setBasePose ⟨1, 0, 0⟩ q_id, Ev.setArmPose ⟨1, 0, 0⟩ q_id]

/-- The state after `sim_rotate_base 1 false` on `stEx`: orientation snapped to
yaw 1, arm synced, `current_base_yaw` untouched. -/
noncomputable def stR : RobotState :=
  { stEx with baseOrn := angle_to_quaternion 1,
              armPos := ⟨0, 0, 0⟩, armOrn := angle_to_quaternion 1 }

/-- The events of `sim_rotate_base 1 false` on `stEx`. -/
noncomputable def trR : List Ev :=
  [Ev.setBasePose ⟨0, 0, 0⟩ (angle_to_quaternion 1),
   Ev.setArmPose ⟨0, 0, 0⟩ (angle_to_quaternion 1), Ev.runTicks 5]

/-- The state after `sim_rotate_base 0 true` on `stEx` (the loop exits at
once since the base already faces yaw 0). -/
noncomputable def stG : RobotState :=
  { stEx with baseOrn := angle_to_quaternion 0,
              armPos := ⟨0, 0, 0⟩, armOrn := angle_to_quaternion 0,
              current_base_yaw := 0 }

/-- The events of `sim_rotate_base 0 true` on `stEx`. -/
noncomputable def trG : List Ev :=
  [Ev.setBasePose ⟨0, 0, 0⟩ (angle_to_quaternion 0),
   Ev.setArmPose ⟨0, 0, 0⟩ (angle_to_quaternion 0), Ev.runStep]

/-- The events of `sim_navigate_base` on `stEx` with an empty path and goal
`gEx`: the final rotation's events, 10 engine ticks, a warning (the error 5
exceeds the threshold), and the closing info message. -/
noncomputable def trNex : List Ev := trG ++ [Ev.runTicks 10, Ev.warn, Ev.info]

/- ------------------------------------------------------------------
Theorems.
------------------------------------------------------------------ -/

lemma fmod_eq_fract (x m : ℝ) (hm : m ≠ 0) : fmod x m = m * Int.fract (x / m) := by
  unfold fmod Int.fract
  field_simp

lemma fmod_nonneg (x m : ℝ) (hm : 0 < m) : 0 ≤ fmod x m := by
  rw [fmod_eq_fract x m hm.ne']
  exact mul_nonneg hm.le (Int.fract_nonneg _)

lemma fmod_lt (x m : ℝ) (hm : 0 < m) : fmod x m < m := by
  rw [fmod_eq_fract x m hm.ne']
  calc m * Int.fract (x / m) < m * 1 := by
        exact (mul_lt_mul_left hm).mpr (Int.fract_lt_one _)
    _ = m := mul_one m

/-- Adding an integer multiple of the modulus does not change `fmod`. -/
lemma fmod_add_int_mul (x m : ℝ) (k : ℤ) (hm : m ≠ 0) :
    fmod (x + m * k) m = fmod x m := by
  rw [fmod_eq_fract _ _ hm, fmod_eq_fract _ _ hm]
  have h : (x + m * k) / m = x / m + k := by field_simp; ring
  rw [h, Int.fract_add_int]

/-- `fmod` of a negated argument, away from the zero residue. -/
lemma fmod_neg_of_ne_zero (x m : ℝ) (hm : 0 < m) (hx : fmod x m ≠ 0) :
    fmod (-x) m = m - fmod x m := by
  have hfr : Int.fract (x / m) ≠ 0 := by
    intro h0
    apply hx
    rw [fmod_eq_fract _ _ hm.ne', h0, mul_zero]
  rw [fmod_eq_fract _ _ hm.ne', fmod_eq_fract _ _ hm.ne', neg_div,
    Int.fract_neg hfr]
  ring

/-- Subtracting `d ≤ fmod x m` from the argument subtracts it from the residue. -/
lemma fmod_sub_of_le (x m d : ℝ) (hm : 0 < m) (hd : 0 ≤ d)
    (h : d ≤ fmod x m) : fmod (x - d) m = fmod x m - d := by
  have hx : fmod x m = x - m * ⌊x / m⌋ := rfl
  have hfloor : ⌊(x - d) / m⌋ = ⌊x / m⌋ := by
    rw [Int.floor_eq_iff]
    constructor
    · rw [le_div_iff hm]
      nlinarith
    · have h1 : x / m < ⌊x / m⌋ + 1 := Int.lt_floor_add_one _
      have h2 : (x - d) / m ≤ x / m := by
        gcongr
        linarith
      linarith
  unfold fmod
  rw [hfloor]
  ring

/-- Adding `d` with `fmod x m + d < m` adds it to the residue. -/
lemma fmod_add_of_lt (x m d : ℝ) (hm : 0 < m) (hd : 0 ≤ d)
    (h : fmod x m + d < m) : fmod (x + d) m = fmod x m + d := by
  have hx : fmod x m = x - m * ⌊x / m⌋ := rfl
  have hfloor : ⌊(x + d) / m⌋ = ⌊x / m⌋ := by
    rw [Int.floor_eq_iff]
    constructor
    · rw [le_div_iff hm]
      have h0 : 0 ≤ fmod x m := fmod_nonneg x m hm
      nlinarith
    · rw [div_lt_iff hm]
      nlinarith
  unfold fmod
  rw [hfloor]
  ring

lemma two_pi_pos : (0 : ℝ) < 2 * π := by positivity

/-- The value of `shortest_angular_distance` always lies in `[-π, π)`. -/
lemma shortest_angular_distance_mem_Ico (a b : ℝ) :
    shortest_angular_distance a b ∈ Set.Ico (-π) π := by
  unfold shortest_angular_distance
  constructor
  · have h := fmod_nonneg (b - a + π) (2 * π) two_pi_pos
    linarith
  · have h := fmod_lt (b - a + π) (2 * π) two_pi_pos
    linarith

/-- `shortest_angular_distance` is invariant under shifting the source angle by
an integer multiple of `2π`. -/
lemma shortest_angular_distance_shift (a b : ℝ) (k : ℤ) :
    shortest_angular_distance (a - 2 * π * k) b = shortest_angular_distance a b := by
  unfold shortest_angular_distance
  have h : b - (a - 2 * π * k) + π = (b - a + π) + (2 * π) * k := by ring
  rw [h, fmod_add_int_mul _ _ _ two_pi_pos.ne']

/-- `shortest_angular_distance a a = 0`. -/
lemma shortest_angular_distance_self (a : ℝ) :
    shortest_angular_distance a a = 0 := by
  unfold shortest_angular_distance
  have h : a - a + π = π := by ring
  rw [h]
  unfold fmod
  have hq : π / (2 * π) = 1 / 2 := by
    rw [eq_div_iff (by norm_num : (2:ℝ) ≠ 0)]
    field_simp
    ring
  have hfl : ⌊π / (2 * π)⌋ = 0 := by
    rw [hq]
    norm_num
  rw [hfl]
  ring

/-- `fmod` is the identity on `[0, m)`. -/
lemma fmod_eq_self (x m : ℝ) (h0 : 0 ≤ x) (h1 : x < m) : fmod x m = x := by
  have hm : 0 < m := lt_of_le_of_lt h0 h1
  have hfl : ⌊x / m⌋ = 0 := by
    rw [Int.floor_eq_zero_iff]
    constructor
    · positivity
    · rw [div_lt_one hm]
      exact h1
  unfold fmod
  rw [hfl]
  ring

lemma shortest_angular_distance_zero_pi : shortest_angular_distance 0 π = -π := by
  unfold shortest_angular_distance
  have h : π - 0 + π = (0 : ℝ) + (2 * π) * (1 : ℤ) := by push_cast; ring
  rw [h, fmod_add_int_mul _ _ _ two_pi_pos.ne']
  unfold fmod
  norm_num

lemma shortest_angular_distance_pi_zero : shortest_angular_distance π 0 = -π := by
  unfold shortest_angular_distance
  have h : 0 - π + π = (0 : ℝ) := by ring
  rw [h]
  unfold fmod
  norm_num

lemma shortest_angular_distance_zero_one : shortest_angular_distance 0 1 = 1 := by
  unfold shortest_angular_distance
  have h : 1 - 0 + π = 1 + π := by ring
  rw [h, fmod_eq_self _ _ (by positivity) (by linarith [Real.pi_gt_three])]
  ring

/-- Claim C2 counterexample: at `a = 0, b = π` the code's
`shortest_angular_distance` returns `-π`, which is outside `(-π, π]`, and
`shortest_angular_distance π 0` is also `-π`, so antisymmetry
`d(a,b) = -d(b,a)` fails at this input. -/
theorem shortest_angular_distance_claim_counterexample :
    shortest_angular_distance 0 π = -π ∧
    shortest_angular_distance π 0 = -π ∧
    shortest_angular_distance 0 π ∉ Set.Ioc (-π) π ∧
    shortest_angular_distance 0 π ≠ -(shortest_angular_distance π 0) := by
  have hpi : (0:ℝ) < π := Real.pi_pos
  have h1 := shortest_angular_distance_zero_pi
  have h2 := shortest_angular_distance_pi_zero
  refine ⟨h1, h2, ?_, ?_⟩
  · rw [h1]
    intro hmem
    exact (lt_irrefl (-π)) hmem.1
  · rw [h1, h2]
    intro heq
    have : π = 0 := by linarith
    exact Real.pi_ne_zero this

/-- Claim C2 (amended): `shortest_angular_distance` always lies in the
half-open interval `[-π, π)`, and it is antisymmetric,
`d(a,b) = -d(b,a)`, whenever its value is not the boundary value `-π`;
when `d(a,b) = -π` (i.e. `b - a ≡ π (mod 2π)`), `d(b,a) = -π` as well. -/
theorem shortest_angular_distance_range_antisym (a b : ℝ) :
    shortest_angular_distance a b ∈ Set.Ico (-π) π ∧
    (shortest_angular_distance a b ≠ -π →
      shortest_angular_distance a b = -(shortest_angular_distance b a)) ∧
    (shortest_angular_distance a b = -π →
      shortest_angular_distance b a = -π) := by
  refine ⟨shortest_angular_distance_mem_Ico a b, ?_, ?_⟩
  · intro hne
    unfold shortest_angular_distance at *
    have hu : a - b + π = -(b - a + π) + (2 * π) * (1 : ℤ) := by push_cast; ring
    have hz : fmod (b - a + π) (2 * π) ≠ 0 := by
      intro h0
      apply hne
      rw [h0]
      ring
    rw [hu, fmod_add_int_mul _ _ _ two_pi_pos.ne',
      fmod_neg_of_ne_zero _ _ two_pi_pos hz]
    ring
  · intro hval
    unfold shortest_angular_distance at *
    have hz : fmod (b - a + π) (2 * π) = 0 := by linarith
    have hint : b - a + π = (2 * π) * ⌊(b - a + π) / (2 * π)⌋ := by
      have h : fmod (b - a + π) (2 * π) =
          b - a + π - (2 * π) * ⌊(b - a + π) / (2 * π)⌋ := rfl
      linarith [h ▸ hz]
    have hu : a - b + π =
        (0 : ℝ) + (2 * π) * ((1 - ⌊(b - a + π) / (2 * π)⌋ : ℤ) : ℝ) := by
      push_cast
      linarith
    rw [hu, fmod_add_int_mul _ _ _ two_pi_pos.ne']
    unfold fmod
    norm_num

/-- Witness for the amended C2 theorem: at `(0, 1)` the value is in range and
antisymmetry applies (the value `1` is not `-π`); at `(0, π)` the boundary case
applies and forces `shortest_angular_distance π 0 = -π`. -/
theorem shortest_angular_distance_range_antisym_witness :
    shortest_angular_distance 0 1 ∈ Set.Ico (-π) π ∧
    shortest_angular_distance 0 1 = -(shortest_angular_distance 1 0) ∧
    shortest_angular_distance π 0 = -π :=
  ⟨(shortest_angular_distance_range_antisym 0 1).1,
   (shortest_angular_distance_range_antisym 0 1).2.1 (by
      rw [shortest_angular_distance_zero_one]
      intro h
      linarith [Real.pi_pos]),
   (shortest_angular_distance_range_antisym 0 π).2.2
      shortest_angular_distance_zero_pi⟩

/-- `normalize_yaw` subtracts an integer multiple of `2π`. -/
lemma normalize_yaw_eq_sub (y : ℝ) :
    normalize_yaw y = y - 2 * π * ((⌊(y + π) / (2 * π)⌋ : ℤ) : ℝ) := by
  unfold normalize_yaw fmod
  ring

/-- `shortest_angular_distance` is unchanged by normalising the source yaw. -/
lemma sad_normalize (y t : ℝ) :
    shortest_angular_distance (normalize_yaw y) t =
      shortest_angular_distance y t := by
  rw [normalize_yaw_eq_sub]
  exact shortest_angular_distance_shift y t _

/-- Stepping the yaw up by `s` while the signed distance exceeds `s` shrinks
the signed distance by exactly `s`. -/
lemma sad_step_pos (y t s : ℝ) (hs : 0 < s)
    (h : s < shortest_angular_distance y t) :
    shortest_angular_distance (y + s) t = shortest_angular_distance y t - s := by
  unfold shortest_angular_distance at *
  have harg : t - (y + s) + π = (t - y + π) - s := by ring
  rw [harg, fmod_sub_of_le _ _ _ two_pi_pos hs.le (by linarith [Real.pi_pos])]
  ring

/-- Stepping the yaw down by `s` while the signed distance is below `-s` grows
the signed distance by exactly `s`. -/
lemma sad_step_neg (y t s : ℝ) (hs : 0 < s)
    (h : shortest_angular_distance y t < -s) :
    shortest_angular_distance (y - s) t = shortest_angular_distance y t + s := by
  unfold shortest_angular_distance at *
  have harg : t - (y - s) + π = (t - y + π) + s := by ring
  rw [harg, fmod_add_of_lt _ _ _ two_pi_pos hs.le (by linarith [Real.pi_pos])]
  ring

/-- The body of the rotation loop leaves `current_base_yaw` at the normalised
stepped yaw. -/
lemma rotate_step_yaw (target_yaw step_size : ℝ) (st : RobotState) :
    (rotate_step target_yaw step_size st).1.current_base_yaw =
      normalize_yaw
        (if 0 < shortest_angular_distance st.current_base_yaw target_yaw
         then st.current_base_yaw + step_size
         else st.current_base_yaw - step_size) := rfl

/-- Each executed iteration of the rotation loop decreases
`|shortest_angular_distance|` by exactly `step_size`. -/
lemma sad_rotate_step (t s : ℝ) (st : RobotState) (hs : 0 < s)
    (h : s < |shortest_angular_distance st.current_base_yaw t|) :
    |shortest_angular_distance (rotate_step t s st).1.current_base_yaw t| =
      |shortest_angular_distance st.current_base_yaw t| - s := by
  rw [rotate_step_yaw, sad_normalize]
  rcases lt_or_le 0 (shortest_angular_distance st.current_base_yaw t) with hpos | hneg
  · rw [if_pos hpos, abs_of_pos hpos] at *
    rw [sad_step_pos _ _ _ hs h, abs_of_nonneg (by linarith)]
  · rw [if_neg (not_lt.mpr hneg), abs_of_nonpos hneg] at *
    have hlt : shortest_angular_distance st.current_base_yaw t < -s := by linarith
    rw [sad_step_neg _ _ _ hs hlt, abs_of_nonpos (by linarith)]
    ring

/-- If the loop guard fails, the rotation loop exits immediately with no
events, for any fuel. -/
lemma rotate_loop_exit (t s : ℝ) (n : ℕ) (st : RobotState)
    (h : |shortest_angular_distance st.current_base_yaw t| ≤ s) :
    rotate_loop t s n st = some (st, []) := by
  cases n <;> · unfold rotate_loop; rw [if_neg (not_lt.mpr h)]

/-- Totality of the rotation loop: with
`|shortest_angular_distance| ≤ s + n·s` of slack, fuel `n` suffices, and on
exit the loop guard has failed. -/
lemma rotate_loop_total (t s : ℝ) (hs : 0 < s) :
    ∀ (n : ℕ) (st : RobotState),
      |shortest_angular_distance st.current_base_yaw t| ≤ s + (n : ℝ) * s →
      ∃ st2 evs, rotate_loop t s n st = some (st2, evs) ∧
        |shortest_angular_distance st2.current_base_yaw t| ≤ s := by
  intro n
  induction n with
  | zero =>
    intro st h
    push_cast at h
    rw [zero_mul, add_zero] at h
    exact ⟨st, [], rotate_loop_exit t s 0 st h, h⟩
  | succ n ih =>
    intro st h
    by_cases hc : s < |shortest_angular_distance st.current_base_yaw t|
    · have hdec := sad_rotate_step t s st hs hc
      have hb : |shortest_angular_distance
          (rotate_step t s st).1.current_base_yaw t| ≤ s + (n : ℝ) * s := by
        rw [hdec]
        push_cast at h
        linarith
      obtain ⟨st2, evs, heq, hexit⟩ := ih (rotate_step t s st).1 hb
      refine ⟨st2, (rotate_step t s st).2 ++ evs, ?_, hexit⟩
      unfold rotate_loop
      rw [if_pos hc]
      simp only [heq, Option.map_some']
    · push_neg at hc
      exact ⟨st, [], rotate_loop_exit t s _ st hc, hc⟩

/-- The fuel `⌈π / s⌉₊` always provides enough slack for the rotation loop. -/
lemma rotate_fuel_enough (t s : ℝ) (hs : 0 < s) (st : RobotState) :
    |shortest_angular_distance st.current_base_yaw t| ≤
      s + ((⌈π / s⌉₊ : ℕ) : ℝ) * s := by
  have hmem := shortest_angular_distance_mem_Ico st.current_base_yaw t
  have habs : |shortest_angular_distance st.current_base_yaw t| ≤ π := by
    rw [abs_le]
    exact ⟨hmem.1, hmem.2.le⟩
  have hceil : π / s ≤ ((⌈π / s⌉₊ : ℕ) : ℝ) := Nat.le_ceil _
  have hms : π ≤ ((⌈π / s⌉₊ : ℕ) : ℝ) * s := by
    rw [div_le_iff hs] at hceil
    linarith
  linarith

/-- Claim C3: for every target yaw and positive step size, the gradual branch
of `sim_rotate_base` terminates with fuel `⌈π / step_size⌉₊`: the while loop
exits in a state whose shortest angular distance to the target is at most
`step_size`, and after the loop the applied base orientation is exactly
`angle_to_quaternion target_yaw` and the stored `current_base_yaw` equals
`target_yaw` exactly. -/
theorem sim_rotate_base_gradual_terminates (target_yaw step_size : ℝ)
    (st : RobotState) (hs : 0 < step_size) :
    ∃ stm evsL st2 evs,
      rotate_loop target_yaw step_size (⌈π / step_size⌉₊) st = some (stm, evsL) ∧
      |shortest_angular_distance stm.current_base_yaw target_yaw| ≤ step_size ∧
      sim_rotate_base target_yaw true step_size (⌈π / step_size⌉₊) st =
        some (st2, evs) ∧
      st2.current_base_yaw = target_yaw ∧
      st2.baseOrn = angle_to_quaternion target_yaw := by
  obtain ⟨stm, evsL, heq, hexit⟩ :=
    rotate_loop_total target_yaw step_size hs (⌈π / step_size⌉₊) st
      (rotate_fuel_enough target_yaw step_size hs st)
  refine ⟨stm, evsL,
    { (sim_sync_base_arm_pose
        { stm with baseOrn := angle_to_quaternion target_yaw }).1
      with current_base_yaw := target_yaw },
    evsL ++ Ev.setBasePose stm.basePos (angle_to_quaternion target_yaw) ::
      (sim_sync_base_arm_pose
        { stm with baseOrn := angle_to_quaternion target_yaw }).2 ++
      [Ev.runStep],
    heq, hexit, ?_, rfl, rfl⟩
  unfold sim_rotate_base
  rw [if_pos rfl]
  simp only [heq, Option.map_some']

/-- Witness for C3 at the concrete input `target_yaw = 2`, `step_size = 1`,
state `stEx`. -/
theorem sim_rotate_base_gradual_terminates_witness :
    (0 : ℝ) < 1 ∧
    ∃ stm evsL st2 evs,
      rotate_loop 2 1 (⌈π / 1⌉₊) stEx = some (stm, evsL) ∧
      |shortest_angular_distance stm.current_base_yaw 2| ≤ 1 ∧
      sim_rotate_base 2 true 1 (⌈π / 1⌉₊) stEx = some (st2, evs) ∧
      st2.current_base_yaw = 2 ∧
      st2.baseOrn = angle_to_quaternion 2 :=
  ⟨by norm_num, sim_rotate_base_gradual_terminates 2 1 stEx (by norm_num)⟩

/-- Evaluation of the non-gradual branch at yaw 1 on `stEx`. -/
lemma rotate_nongradual_eval :
    sim_rotate_base 1 false 0.02 0 stEx = some (stR, trR) := rfl

/-- Evaluation of the gradual branch at yaw 0 on `stEx` (already facing 0, so
the loop exits immediately). -/
lemma rotate_gradual_eval :
    sim_rotate_base 0 true 0.02 1 stEx = some (stG, trG) := by
  unfold sim_rotate_base
  rw [if_pos rfl]
  have hyaw : stEx.current_base_yaw = 0 := rfl
  have hsad : |shortest_angular_distance stEx.current_base_yaw 0| ≤ 0.02 := by
    rw [hyaw, shortest_angular_distance_self]
    norm_num
  rw [rotate_loop_exit 0 0.02 1 stEx hsad]
  rfl

/-- Claim C9: the non-gradual branch of `sim_rotate_base` applies the target
orientation to the body but leaves `current_base_yaw` at its prior value, so a
later gradual rotation measures its shortest angular distance from the stale
stored yaw; the gradual branch instead ends with `current_base_yaw` equal to
the target. -/
theorem sim_rotate_base_nongradual_stale_yaw
    (t t2 s : ℝ) (f : ℕ) (st st2 : RobotState) (evs : List Ev) :
    (sim_rotate_base t false s f st = some (st2, evs) →
      st2.current_base_yaw = st.current_base_yaw ∧
      st2.baseOrn = angle_to_quaternion t ∧
      shortest_angular_distance st2.current_base_yaw t2 =
        shortest_angular_distance st.current_base_yaw t2) ∧
    (sim_rotate_base t true s f st = some (st2, evs) →
      st2.current_base_yaw = t) := by
  constructor
  · intro h
    unfold sim_rotate_base at h
    rw [if_neg (by simp)] at h
    rw [Option.some.injEq, Prod.mk.injEq] at h
    obtain ⟨hst, -⟩ := h
    subst hst
    exact ⟨rfl, rfl, rfl⟩
  · intro h
    unfold sim_rotate_base at h
    rw [if_pos rfl] at h
    obtain ⟨r, -, hf⟩ := Option.map_eq_some'.mp h
    obtain ⟨hst, -⟩ := Prod.mk.injEq .. |>.mp hf
    rw [← hst]

/-- Witness for C9: the non-gradual call `sim_rotate_base 1 false` on `stEx`
leaves the stored yaw at `stEx.current_base_yaw` while the body orientation is
`angle_to_quaternion 1`, and the gradual call `sim_rotate_base 0 true` on
`stEx` stores the target yaw 0. -/
theorem sim_rotate_base_nongradual_stale_yaw_witness :
    (stR.current_base_yaw = stEx.current_base_yaw ∧
     stR.baseOrn = angle_to_quaternion 1 ∧
     shortest_angular_distance stR.current_base_yaw 2 =
       shortest_angular_distance stEx.current_base_yaw 2) ∧
    stG.current_base_yaw = 0 :=
  ⟨(sim_rotate_base_nongradual_stale_yaw 1 2 0.02 0 stEx stR trR).1
      rotate_nongradual_eval,
   (sim_rotate_base_nongradual_stale_yaw 0 2 0.02 1 stEx stG trG).2
      rotate_gradual_eval⟩

/-- Claim C8: the PID `calculate` is a pure function of the controller state
and the measurement (it is a Lean function, so determinism is by
construction); it satisfies `error = setpoint - measurement` and
`output = Kp*error + Ki*integral_accumulator + Kd*derivative` with the updated
accumulator, and with `Kp=1, Ki=0, Kd=0, setpoint=0` and fresh state,
`calculate 5 = -5` followed by `calculate 3 = -3`. -/
theorem pid_calculate_correct :
    (∀ (st : PIDController) (m : ℝ),
      (st.calculate m).1 =
        st.Kp * (st.setpoint - m) + st.Ki * (st.integral + (st.setpoint - m)) +
          st.Kd * ((st.setpoint - m) - st.prev_error) ∧
      (st.calculate m).2 =
        { st with integral := st.integral + (st.setpoint - m),
                  prev_error := st.setpoint - m }) ∧
    (pid_ex.calculate 5).1 = -5 ∧
    ((pid_ex.calculate 5).2.calculate 3).1 = -3 := by
  refine ⟨fun st m => ⟨rfl, rfl⟩, ?_, ?_⟩ <;>
    norm_num [PIDController.calculate, pid_ex]

/-- Claim C10: `sim_action` changes only the base's x and y coordinates, by
`output * cos(yaw)` and `output * sin(yaw)` where `yaw` is read back from the
base orientation quaternion; the z coordinate and the orientation quaternion
are passed back to the engine unchanged. -/
theorem sim_action_translates_only (output : ℝ) (st : RobotState) :
    (sim_action output st).1.basePos.x =
      st.basePos.x + output * Real.cos (eulerYaw st.baseOrn) ∧
    (sim_action output st).1.basePos.y =
      st.basePos.y + output * Real.sin (eulerYaw st.baseOrn) ∧
    (sim_action output st).1.basePos.z = st.basePos.z ∧
    (sim_action output st).1.baseOrn = st.baseOrn ∧
    (sim_action output st).2 =
      [Ev.setBasePose (sim_action output st).1.basePos st.baseOrn,
       Ev.setArmPose ⟨st.basePos.x + output * Real.cos (eulerYaw st.baseOrn),
                      st.basePos.y + output * Real.sin (eulerYaw st.baseOrn),
                      st.arm_place_height⟩ st.baseOrn] :=
  ⟨rfl, rfl, rfl, rfl, rfl⟩

lemma atan2_zero_one : atan2 0 1 = 0 := by
  unfold atan2
  rw [if_pos one_pos]
  norm_num

lemma angle_to_quaternion_zero : angle_to_quaternion 0 = q_id := by
  simp [angle_to_quaternion, q_id]

lemma eulerYaw_q_id : eulerYaw q_id = 0 := by
  unfold eulerYaw q_id
  norm_num [atan2_zero_one]

lemma base_dist_stEx : base_dist wpEx stEx = 1 := by
  unfold base_dist wpEx stEx Pose.x Pose.y
  norm_num [Real.sqrt_one]

lemma base_dist_stFex : base_dist wpEx stFex = 0 := by
  unfold base_dist wpEx stFex Pose.x Pose.y
  norm_num [Real.sqrt_zero]

lemma pid_eval1 : iter_pid wpEx stEx = (-1, pidF) := by
  unfold iter_pid
  rw [base_dist_stEx]
  norm_num [stEx, pid_ex, pidF, PIDController.set_goal, PIDController.calculate]

lemma pid_eval2 : iter_pid wpEx stT = (-1, pidF) := by
  have hd : base_dist wpEx stT = 1 := by
    unfold base_dist wpEx stT stEx Pose.x Pose.y
    norm_num [Real.sqrt_one]
  unfold iter_pid
  rw [hd]
  norm_num [stT, stEx, pid_ex, pidF, PIDController.set_goal,
    PIDController.calculate]

lemma rotate_eval_stPid :
    sim_rotate_base 0 true 0.02 1 { stEx with pid := pidF } =
      some ({ stEx with
                pid := pidF, baseOrn := q_id, armPos := ⟨0, 0, 0⟩,
                armOrn := q_id, current_base_yaw := 0 },
        [Ev.setBasePose ⟨0, 0, 0⟩ q_id, Ev.setArmPose ⟨0, 0, 0⟩ q_id,
         Ev.runStep]) := by
  have hsad : |shortest_angular_distance
      ({ stEx with pid := pidF } : RobotState).current_base_yaw 0| ≤ 0.02 := by
    have h0 : ({ stEx with pid := pidF } : RobotState).current_base_yaw = 0 := rfl
    rw [h0, shortest_angular_distance_self]
    norm_num
  unfold sim_rotate_base
  rw [if_pos rfl, rotate_loop_exit 0 0.02 1 _ hsad]
  simp only [angle_to_quaternion_zero]
  rfl

lemma move_iter_rot_eval :
    move_iter_rot 0 1 { stEx with pid := pidF } = some (stRotF, trRotF) := by
  unfold move_iter_rot
  rw [if_neg (by simp [stEx]), rotate_eval_stPid]
  rfl

lemma sim_action_eval : sim_action 1 stRotF = (stFex, trT) := by
  unfold sim_action sim_sync_base_arm_pose
  norm_num [stRotF, stFex, trT, eulerYaw_q_id, Real.cos_zero, Real.sin_zero]

lemma move_iter_eval : move_iter wpEx 1 1 stEx = some (stFex, trFex) := by
  have hyaw : atan2 (wpEx.y - stEx.basePos.y) (wpEx.x - stEx.basePos.x) = 0 := by
    norm_num [wpEx, stEx, Pose.x, Pose.y, atan2_zero_one]
  simp only [move_iter, pid_eval1, hyaw, move_iter_rot_eval, Option.map_some',
    neg_neg, sim_action_eval]
  norm_num [trFex, trRotF, trT]

/-- An iteration started with the flag set takes the translate-only branch. -/
lemma move_iter_of_rotated (wp : Pose) (rf cnt : ℕ) (st : RobotState)
    (hb : st.base_rotated = true) :
    move_iter wp rf cnt st = some (move_iter_tr wp cnt st) := by
  have hrot : move_iter_rot (atan2 (wp.y - st.basePos.y) (wp.x - st.basePos.x))
      rf { st with pid := (iter_pid wp st).2 } =
      some ({ st with pid := (iter_pid wp st).2 }, []) := by
    unfold move_iter_rot
    rw [if_pos (show ({ st with pid := (iter_pid wp st).2 } :
      RobotState).base_rotated = true from hb)]
  simp only [move_iter, hrot, Option.map_some', move_iter_tr, List.nil_append]

/-- The translate-only iteration leaves the base orientation and the stored
yaw unchanged. -/
lemma move_iter_tr_pose (wp : Pose) (cnt : ℕ) (st : RobotState) :
    (move_iter_tr wp cnt st).1.baseOrn = st.baseOrn ∧
    (move_iter_tr wp cnt st).1.current_base_yaw = st.current_base_yaw :=
  ⟨rfl, rfl⟩

/-- The translate-only iteration emits a `client.run()` exactly when its
counter is divisible by 20. -/
lemma move_iter_tr_runstep (wp : Pose) (cnt : ℕ) (st : RobotState) :
    (move_iter_tr wp cnt st).2.countP isRunStep =
      if cnt % 20 = 0 then 1 else 0 := by
  by_cases hc : cnt % 20 = 0 <;>
    simp [move_iter_tr, sim_action, sim_sync_base_arm_pose, isRunStep, hc]

lemma move_iter_tr_eval : move_iter_tr wpEx 21 stT = (stFex, trT) := by
  simp only [move_iter_tr, pid_eval2, neg_neg]
  rw [show ({ stT with pid := pidF } : RobotState) = stRotF from rfl,
    sim_action_eval]
  norm_num [trT]

/-- A second `move_iter` evaluation, from an already-rotated state at counter
21: no rotation events, no periodic engine step (21 % 20 ≠ 0). -/
lemma move_iter_eval_rotated : move_iter wpEx 1 21 stT = some (stFex, trT) := by
  rw [move_iter_of_rotated wpEx 1 21 stT rfl, move_iter_tr_eval]

/-- If the waypoint-loop guard fails, the loop exits immediately with no events
and the current counter, for any fuel. -/
lemma move_loop_exit (wp : Pose) (thr : ℝ) (rf n cnt : ℕ) (st : RobotState)
    (h : base_dist wp st < thr) :
    move_loop wp thr rf n cnt st = some (st, [], cnt) := by
  cases n <;> · unfold move_loop; rw [if_pos h]

/-- One unfolding of the waypoint loop when the guard holds. -/
lemma move_loop_step (wp : Pose) (thr : ℝ) (rf n cnt : ℕ) (st : RobotState)
    (h : ¬ base_dist wp st < thr) :
    move_loop wp thr rf (n + 1) cnt st =
      (move_iter wp rf cnt st).bind fun r =>
        (move_loop wp thr rf n (cnt + 1) r.1).map fun r2 =>
          (r2.1, r.2 ++ r2.2.1, r2.2.2) := by
  conv_lhs => unfold move_loop
  rw [if_neg h]

/-- Full evaluation of the waypoint loop on `stEx` toward `wpEx` with
threshold 0.01: exactly one iteration runs (final counter 2) and its trace
contains a `client.run()` event issued by the rotation sub-routine. -/
lemma move_loop_eval :
    move_loop wpEx 0.01 1 2 1 stEx = some (stFex, trFex, 2) := by
  have h1 : ¬ base_dist wpEx stEx < 0.01 := by
    rw [base_dist_stEx]; norm_num
  have h2 : base_dist wpEx stFex < 0.01 := by
    rw [base_dist_stFex]; norm_num
  show move_loop wpEx 0.01 1 (1 + 1) 1 stEx = some (stFex, trFex, 2)
  rw [move_loop_step wpEx 0.01 1 1 1 stEx h1]
  simp [move_iter_eval, move_loop_exit wpEx 0.01 1 1 (1 + 1) stFex h2]

/-- Evaluation of the full `sim_move_base_to_waypoint` call on `stEx`. -/
lemma sim_move_eval :
    sim_move_base_to_waypoint wpEx 0.01 1 2 stEx =
      some (stFex, trFex ++ [Ev.runStep]) := by
  unfold sim_move_base_to_waypoint
  rw [show ({ stEx with target_distance := 0, base_rotated := false } :
      RobotState) = stEx from rfl]
  simp [move_loop_eval]

/-- Whenever the waypoint loop returns, the final state's distance to the
waypoint is strictly below the threshold. -/
lemma move_loop_exit_dist (wp : Pose) (thr : ℝ) (rf : ℕ) :
    ∀ (n cnt : ℕ) (st st2 : RobotState) (evs : List Ev) (cntF : ℕ),
      move_loop wp thr rf n cnt st = some (st2, evs, cntF) →
      base_dist wp st2 < thr := by
  intro n
  induction n with
  | zero =>
    intro cnt st st2 evs cntF h
    unfold move_loop at h
    by_cases hd : base_dist wp st < thr
    · rw [if_pos hd, Option.some.injEq] at h
      obtain ⟨hst, -⟩ := Prod.mk.injEq .. |>.mp h
      subst hst
      exact hd
    · rw [if_neg hd] at h
      exact absurd h (by simp)
  | succ n ih =>
    intro cnt st st2 evs cntF h
    unfold move_loop at h
    by_cases hd : base_dist wp st < thr
    · rw [if_pos hd, Option.some.injEq] at h
      obtain ⟨hst, -⟩ := Prod.mk.injEq .. |>.mp h
      subst hst
      exact hd
    · rw [if_neg hd] at h
      obtain ⟨r, hiter, hmap⟩ := Option.bind_eq_some.mp h
      obtain ⟨r2, hrec, heq⟩ := Option.map_eq_some'.mp hmap
      obtain ⟨h1, -⟩ := Prod.mk.injEq .. |>.mp heq
      subst h1
      exact ih (cnt + 1) r.1 r2.1 r2.2.1 r2.2.2 (by rw [hrec])

/-- A successful `move_iter_rot` always returns a state with the
`base_rotated` flag set. -/
lemma move_iter_rot_rotated (yaw : ℝ) (rf : ℕ) (st st2 : RobotState)
    (evs : List Ev) (h : move_iter_rot yaw rf st = some (st2, evs)) :
    st2.base_rotated = true := by
  unfold move_iter_rot at h
  by_cases hb : st.base_rotated = true
  · rw [if_pos hb, Option.some.injEq] at h
    obtain ⟨hst, -⟩ := Prod.mk.injEq .. |>.mp h
    subst hst
    exact hb
  · rw [if_neg hb] at h
    obtain ⟨r, -, hf⟩ := Option.map_eq_some'.mp h
    obtain ⟨hst, -⟩ := Prod.mk.injEq .. |>.mp hf
    rw [← hst]

/-- `sim_action` does not touch the `base_rotated` flag. -/
lemma sim_action_base_rotated (o : ℝ) (st : RobotState) :
    (sim_action o st).1.base_rotated = st.base_rotated := rfl

/-- After any successful waypoint-loop iteration the flag is set. -/
lemma move_iter_rotated (wp : Pose) (rf cnt : ℕ) (st st2 : RobotState)
    (evs : List Ev) (h : move_iter wp rf cnt st = some (st2, evs)) :
    st2.base_rotated = true := by
  simp only [move_iter] at h
  obtain ⟨a, ha, hb⟩ := Option.map_eq_some'.mp h
  have hrot := move_iter_rot_rotated _ _ _ a.1 a.2 (by rw [ha])
  obtain ⟨hst, -⟩ := Prod.mk.injEq .. |>.mp hb
  rw [← hst, sim_action_base_rotated]
  exact hrot

/-- `rot_invocations` is zero from any state whose flag is already set: once
rotated, no later iteration of the same call rotates again. -/
lemma rot_invocations_of_rotated (wp : Pose) (thr : ℝ) (rf : ℕ) :
    ∀ (n cnt : ℕ) (st : RobotState), st.base_rotated = true →
      rot_invocations wp thr rf n cnt st = 0 := by
  intro n
  induction n with
  | zero => intro cnt st h; rfl
  | succ n ih =>
    intro cnt st h
    unfold rot_invocations
    by_cases hd : base_dist wp st < thr
    · rw [if_pos hd]
    · rw [if_neg hd, h]
      cases hiter : move_iter wp rf cnt st with
      | none => simp
      | some r =>
        obtain ⟨r1, r2⟩ := r
        simp [ih (cnt + 1) r1 (move_iter_rotated wp rf cnt st r1 r2 hiter)]

/-- `rot_invocations` never exceeds one: the rotation sub-routine is invoked
at most once per `sim_move_base_to_waypoint` call. -/
lemma rot_invocations_le_one (wp : Pose) (thr : ℝ) (rf : ℕ) :
    ∀ (n cnt : ℕ) (st : RobotState), rot_invocations wp thr rf n cnt st ≤ 1 := by
  intro n
  cases n with
  | zero => intro cnt st; exact Nat.zero_le 1
  | succ n =>
    intro cnt st
    unfold rot_invocations
    by_cases hd : base_dist wp st < thr
    · rw [if_pos hd]; exact Nat.zero_le 1
    · rw [if_neg hd]
      cases hiter : move_iter wp rf cnt st with
      | none => cases hb : st.base_rotated <;> simp
      | some r =>
        obtain ⟨r1, r2⟩ := r
        have hz := rot_invocations_of_rotated wp thr rf n (cnt + 1) r1
          (move_iter_rotated wp rf cnt st r1 r2 hiter)
        cases hb : st.base_rotated <;> simp [hz]

/-- Claim C4 counterexample (to the "engine step exactly on every 20th
iteration" conjunct): running the waypoint loop on `stEx` toward `wpEx`, the
loop executes exactly one iteration (the counter ends at 2), iteration 1 is
not a multiple of 20, and yet the loop trace contains a `client.run()` event —
issued by the rotation sub-routine invoked on the first iteration. -/
theorem sim_move_base_run20_counterexample :
    move_loop wpEx 0.01 1 2 1 stEx = some (stFex, trFex, 2) ∧
    Ev.runStep ∈ trFex ∧ ¬ (20 ∣ 1) := by
  refine ⟨move_loop_eval, ?_, by norm_num⟩
  simp [trFex]

/-- Claim C4 (amended): whenever the waypoint loop of
`sim_move_base_to_waypoint` exits, the distance from the base to the waypoint
is strictly below the threshold, and one engine step is issued unconditionally
after the loop; the loop's own periodic `client.run()` fires exactly on every
20th iteration — every iteration after the first (`base_rotated` set) emits a
run event iff its counter is divisible by 20 — while the first iteration
additionally issues the engine steps of the rotation sub-routine it invokes. -/
theorem sim_move_base_to_waypoint_spec :
    (∀ (wp : Pose) (thr : ℝ) (rf f : ℕ) (st st2 : RobotState) (tr : List Ev),
      sim_move_base_to_waypoint wp thr rf f st = some (st2, tr) →
        base_dist wp st2 < thr ∧ ∃ tr0, tr = tr0 ++ [Ev.runStep]) ∧
    (∀ (wp : Pose) (rf cnt : ℕ) (st : RobotState), st.base_rotated = true →
      ∃ st2 evs, move_iter wp rf cnt st = some (st2, evs) ∧
        evs.countP isRunStep = if cnt % 20 = 0 then 1 else 0) := by
  constructor
  · intro wp thr rf f st st2 tr h
    simp only [sim_move_base_to_waypoint] at h
    obtain ⟨r, hr, hf⟩ := Option.map_eq_some'.mp h
    obtain ⟨h1, h2⟩ := Prod.mk.injEq .. |>.mp hf
    subst h1
    constructor
    · exact move_loop_exit_dist wp thr rf f 1 _ r.1 r.2.1 r.2.2 (by rw [hr])
    · exact ⟨r.2.1, h2.symm⟩
  · intro wp rf cnt st hb
    exact ⟨(move_iter_tr wp cnt st).1, (move_iter_tr wp cnt st).2,
      by rw [move_iter_of_rotated wp rf cnt st hb],
      move_iter_tr_runstep wp cnt st⟩

/-- Witness for the amended C4 theorem on the concrete run from `stEx` to
`wpEx` and on a translate-only iteration at counter 21. -/
theorem sim_move_base_to_waypoint_spec_witness :
    sim_move_base_to_waypoint wpEx 0.01 1 2 stEx =
      some (stFex, trFex ++ [Ev.runStep]) ∧
    base_dist wpEx stFex < 0.01 ∧
    (∃ tr0, trFex ++ [Ev.runStep] = tr0 ++ [Ev.runStep]) ∧
    stT.base_rotated = true ∧
    (∃ st2 evs, move_iter wpEx 1 21 stT = some (st2, evs) ∧
      evs.countP isRunStep = if 21 % 20 = 0 then 1 else 0) := by
  have h := sim_move_base_to_waypoint_spec.1 wpEx 0.01 1 2 stEx stFex
    (trFex ++ [Ev.runStep]) sim_move_eval
  exact ⟨sim_move_eval, h.1, h.2, rfl,
    sim_move_base_to_waypoint_spec.2 wpEx 1 21 stT rfl⟩

/-- Claim C6: within one `sim_move_base_to_waypoint` call the rotation
sub-routine runs at most once, on the first loop iteration: the call enters
its loop with `base_rotated` reset to `False`, the number of iterations taking
the `if not self.base_rotated` branch is at most 1, every successful iteration
leaves the flag set, a flag-set state yields zero further rotation
invocations, and a flag-set iteration only translates — it leaves the base
orientation and the stored yaw unchanged. -/
theorem sim_move_base_rotates_at_most_once :
    (∀ (wp : Pose) (thr : ℝ) (rf f : ℕ) (st : RobotState),
      rot_invocations wp thr rf f 1
        { st with target_distance := 0, base_rotated := false } ≤ 1) ∧
    (∀ (wp : Pose) (thr : ℝ) (rf n cnt : ℕ) (st : RobotState),
      st.base_rotated = true → rot_invocations wp thr rf n cnt st = 0) ∧
    (∀ (wp : Pose) (rf cnt : ℕ) (st st2 : RobotState) (evs : List Ev),
      move_iter wp rf cnt st = some (st2, evs) → st2.base_rotated = true) ∧
    (∀ (wp : Pose) (rf cnt : ℕ) (st : RobotState), st.base_rotated = true →
      move_iter wp rf cnt st = some (move_iter_tr wp cnt st) ∧
      (move_iter_tr wp cnt st).1.baseOrn = st.baseOrn ∧
      (move_iter_tr wp cnt st).1.current_base_yaw = st.current_base_yaw) := by
  refine ⟨?_, ?_, ?_, ?_⟩
  · intro wp thr rf f st
    exact rot_invocations_le_one wp thr rf f 1 _
  · intro wp thr rf n cnt st h
    exact rot_invocations_of_rotated wp thr rf n cnt st h
  · exact move_iter_rotated
  · intro wp rf cnt st hb
    exact ⟨move_iter_of_rotated wp rf cnt st hb, rfl, rfl⟩

/-- Witness for C6 at concrete inputs: the entry state of a call on `stEx`,
a flag-set state `stT`, and the concrete iteration at counter 21. -/
theorem sim_move_base_rotates_at_most_once_witness :
    rot_invocations wpEx 0.01 1 3 1
      { stEx with target_distance := 0, base_rotated := false } ≤ 1 ∧
    rot_invocations wpEx 0.01 1 3 5 stT = 0 ∧
    stFex.base_rotated = true ∧
    (move_iter wpEx 1 21 stT = some (move_iter_tr wpEx 21 stT) ∧
     (move_iter_tr wpEx 21 stT).1.baseOrn = stT.baseOrn ∧
     (move_iter_tr wpEx 21 stT).1.current_base_yaw = stT.current_base_yaw) :=
  ⟨sim_move_base_rotates_at_most_once.1 wpEx 0.01 1 3 stEx,
   sim_move_base_rotates_at_most_once.2.1 wpEx 0.01 1 3 5 stT rfl,
   sim_move_base_rotates_at_most_once.2.2.1 wpEx 1 21 stT stFex trT
     move_iter_eval_rotated,
   sim_move_base_rotates_at_most_once.2.2.2 wpEx 1 21 stT rfl⟩

lemma warn_not_mem_rotate_step (t s : ℝ) (st : RobotState) :
    Ev.warn ∉ (rotate_step t s st).2 := by
  simp [rotate_step, sim_sync_base_arm_pose]

lemma warn_not_mem_rotate_loop (t s : ℝ) :
    ∀ (n : ℕ) (st : RobotState) (r : RobotState × List Ev),
      rotate_loop t s n st = some r → Ev.warn ∉ r.2 := by
  intro n
  induction n with
  | zero =>
    intro st r h
    unfold rotate_loop at h
    by_cases hc : s < |shortest_angular_distance st.current_base_yaw t|
    · rw [if_pos hc] at h
      exact absurd h (by simp)
    · rw [if_neg hc, Option.some.injEq] at h
      rw [← h]
      simp
  | succ n ih =>
    intro st r h
    unfold rotate_loop at h
    by_cases hc : s < |shortest_angular_distance st.current_base_yaw t|
    · rw [if_pos hc] at h
      obtain ⟨a, ha, hf⟩ := Option.map_eq_some'.mp h
      rw [← hf]
      have h1 := warn_not_mem_rotate_step t s st
      have h2 := ih _ a ha
      simp [h1, h2]
    · rw [if_neg hc, Option.some.injEq] at h
      rw [← h]
      simp

lemma warn_not_mem_sim_rotate_base (t s : ℝ) (g : Bool) (f : ℕ)
    (st : RobotState) (r : RobotState × List Ev)
    (h : sim_rotate_base t g s f st = some r) : Ev.warn ∉ r.2 := by
  unfold sim_rotate_base at h
  cases g with
  | true =>
    rw [if_pos rfl] at h
    obtain ⟨a, ha, hf⟩ := Option.map_eq_some'.mp h
    rw [← hf]
    have h1 := warn_not_mem_rotate_loop t s f st a ha
    simp [h1, sim_sync_base_arm_pose]
  | false =>
    rw [if_neg (by simp), Option.some.injEq] at h
    rw [← h]
    simp [sim_sync_base_arm_pose]

lemma warn_not_mem_sim_action (o : ℝ) (st : RobotState) :
    Ev.warn ∉ (sim_action o st).2 := by
  simp [sim_action, sim_sync_base_arm_pose]

lemma warn_not_mem_move_iter_rot (yaw : ℝ) (rf : ℕ) (st : RobotState)
    (r : RobotState × List Ev) (h : move_iter_rot yaw rf st = some r) :
    Ev.warn ∉ r.2 := by
  unfold move_iter_rot at h
  by_cases hb : st.base_rotated = true
  · rw [if_pos hb, Option.some.injEq] at h
    rw [← h]
    simp
  · rw [if_neg hb] at h
    obtain ⟨a, ha, hf⟩ := Option.map_eq_some'.mp h
    rw [← hf]
    exact warn_not_mem_sim_rotate_base _ _ _ _ _ a ha

lemma warn_not_mem_move_iter (wp : Pose) (rf cnt : ℕ) (st : RobotState)
    (r : RobotState × List Ev) (h : move_iter wp rf cnt st = some r) :
    Ev.warn ∉ r.2 := by
  simp only [move_iter] at h
  obtain ⟨a, ha, hf⟩ := Option.map_eq_some'.mp h
  rw [← hf]
  have h1 := warn_not_mem_move_iter_rot _ _ _ a ha
  by_cases hc : cnt % 20 = 0 <;>
    simp [hc, h1, warn_not_mem_sim_action]

lemma warn_not_mem_move_loop (wp : Pose) (thr : ℝ) (rf : ℕ) :
    ∀ (n cnt : ℕ) (st : RobotState) (r : RobotState × List Ev × ℕ),
      move_loop wp thr rf n cnt st = some r → Ev.warn ∉ r.2.1 := by
  intro n
  induction n with
  | zero =>
    intro cnt st r h
    unfold move_loop at h
    by_cases hd : base_dist wp st < thr
    · rw [if_pos hd, Option.some.injEq] at h
      rw [← h]
      simp
    · rw [if_neg hd] at h
      exact absurd h (by simp)
  | succ n ih =>
    intro cnt st r h
    unfold move_loop at h
    by_cases hd : base_dist wp st < thr
    · rw [if_pos hd, Option.some.injEq] at h
      rw [← h]
      simp
    · rw [if_neg hd] at h
      obtain ⟨a, ha, hmap⟩ := Option.bind_eq_some.mp h
      obtain ⟨b, hb, heq⟩ := Option.map_eq_some'.mp hmap
      rw [← heq]
      have h1 := warn_not_mem_move_iter _ _ _ _ a ha
      have h2 := ih (cnt + 1) a.1 b hb
      simp [h1, h2]

lemma warn_not_mem_sim_move (wp : Pose) (thr : ℝ) (rf f : ℕ) (st : RobotState)
    (r : RobotState × List Ev)
    (h : sim_move_base_to_waypoint wp thr rf f st = some r) :
    Ev.warn ∉ r.2 := by
  simp only [sim_move_base_to_waypoint] at h
  obtain ⟨a, ha, hf⟩ := Option.map_eq_some'.mp h
  rw [← hf]
  have h1 := warn_not_mem_move_loop _ _ _ _ _ _ a ha
  simp [h1]

lemma warn_not_mem_nav_path_loop (goalOrn : Quat) (ep : Bool) (rf wf : ℕ) :
    ∀ (path : List (ℝ × ℝ)) (prev : Option (ℝ × ℝ)) (st : RobotState)
      (r : RobotState × List Ev),
      nav_path_loop goalOrn ep rf wf path prev st = some r → Ev.warn ∉ r.2 := by
  intro path
  induction path with
  | nil =>
    intro prev st r h
    unfold nav_path_loop at h
    rw [Option.some.injEq] at h
    rw [← h]
    simp
  | cons pt rest ih =>
    intro prev st r h
    unfold nav_path_loop at h
    obtain ⟨a, ha, hmap⟩ := Option.bind_eq_some.mp h
    obtain ⟨b, hb, heq⟩ := Option.map_eq_some'.mp hmap
    rw [← heq]
    have h1 := warn_not_mem_sim_move _ _ _ _ _ a ha
    have h2 := ih (some pt) a.1 b hb
    cases prev with
    | none => simp [h1, h2]
    | some fp => by_cases hep : ep = true <;> simp [hep, h1, h2]

lemma nav_error_eval : sim_calculate_nav_error gEx stG = 5 := by
  unfold sim_calculate_nav_error gEx stG stEx q_id
  rw [show ((0:ℝ) - 5) ^ 2 + ((0:ℝ) - 0) ^ 2 + ((0:ℝ) - 0) ^ 2 = 5 ^ 2 by
    norm_num]
  exact Real.sqrt_sq (by norm_num)

/-- Evaluation of `sim_navigate_base` on `stEx` with an empty path. -/
lemma nav_eval :
    sim_navigate_base gEx [] 0.05 false 1 1 stEx = some (stG, trNex) := by
  unfold sim_navigate_base
  rw [show nav_path_loop gEx.orientation false 1 1 [] none stEx =
    some (stEx, []) from rfl]
  rw [show eulerYaw gEx.orientation = 0 from eulerYaw_q_id]
  simp [rotate_gradual_eval, nav_error_eval, trNex,
    show (0.05 : ℝ) ≤ 5 from by norm_num]

/-- Claim C5: when `sim_navigate_base` completes (every inner loop
terminated), it never fails on a large final error: after the last waypoint it
performs the final rotation, and the only difference between reaching the goal
and missing it is a warning print — present in the trace exactly when the
navigation error is `≥ threshold` — followed in both cases by the closing info
message (the Python function returns `None` either way, so the caller cannot
distinguish the two outcomes by the return value). -/
theorem sim_navigate_base_completes_with_warning (goal : Pose)
    (path : List (ℝ × ℝ)) (threshold : ℝ) (ep : Bool) (rf wf : ℕ)
    (st st2 : RobotState) (tr : List Ev)
    (h : sim_navigate_base goal path threshold ep rf wf st = some (st2, tr)) :
    (Ev.warn ∈ tr ↔ threshold ≤ sim_calculate_nav_error goal st2) ∧
    tr.getLast? = some Ev.info := by
  simp only [sim_navigate_base] at h
  obtain ⟨a, ha, hmap⟩ := Option.bind_eq_some.mp h
  obtain ⟨b, hb, heq⟩ := Option.map_eq_some'.mp hmap
  obtain ⟨h1, h2⟩ := Prod.mk.injEq .. |>.mp heq
  subst h1
  subst h2
  have hA := warn_not_mem_nav_path_loop _ _ _ _ _ _ _ a ha
  have hB := warn_not_mem_sim_rotate_base _ _ _ _ _ b hb
  constructor
  · constructor
    · intro hw
      by_contra hc
      rw [if_neg hc] at hw
      simp [hA, hB] at hw
    · intro hcond
      rw [if_pos hcond]
      simp
  · by_cases hcond : threshold ≤ sim_calculate_nav_error goal b.1 <;>
      simp [hcond, List.getLast?_append]

/-- Witness for C5: on `stEx` with an empty path and goal `gEx` five metres
away, navigation completes with the warning in the trace (error 5 ≥ 0.05) and
the info message last. -/
theorem sim_navigate_base_completes_with_warning_witness :
    sim_navigate_base gEx [] 0.05 false 1 1 stEx = some (stG, trNex) ∧
    (Ev.warn ∈ trNex ↔ (0.05 : ℝ) ≤ sim_calculate_nav_error gEx stG) ∧
    trNex.getLast? = some Ev.info := by
  have h := sim_navigate_base_completes_with_warning gEx [] 0.05 false 1 1
    stEx stG trNex nav_eval
  exact ⟨nav_eval, h.1, h.2⟩

lemma lerp_vec_zero (a b : Vec3) : lerp_vec a b 0 = a := by
  unfold lerp_vec
  ext <;> simp

lemma lerp_vec_one (a b : Vec3) : lerp_vec a b 1 = b := by
  unfold lerp_vec
  ext <;> simp

lemma getQuaternionSlerp_zero (q0 q1 : Quat) :
    getQuaternionSlerp q0 q1 0 = q0 := by
  unfold getQuaternionSlerp
  by_cases hs : Real.sin (Real.arccos (qdot q0 q1)) = 0
  · rw [if_pos hs]
  · rw [if_neg hs]
    have hA : Real.sin (((1 : ℝ) - 0) * Real.arccos (qdot q0 q1)) /
        Real.sin (Real.arccos (qdot q0 q1)) = 1 := by
      rw [show ((1 : ℝ) - 0) = 1 by norm_num, one_mul, div_self hs]
    have hB : Real.sin ((0 : ℝ) * Real.arccos (qdot q0 q1)) /
        Real.sin (Real.arccos (qdot q0 q1)) = 0 := by
      rw [zero_mul, Real.sin_zero, zero_div]
    ext <;> simp [hA, hB, div_self hs]

lemma getQuaternionSlerp_one (q0 q1 : Quat) (h0 : unit_quat q0)
    (h1 : unit_quat q1) (hdot : qdot q0 q1 ≠ -1) :
    getQuaternionSlerp q0 q1 1 = q1 := by
  unfold getQuaternionSlerp
  by_cases hs : Real.sin (Real.arccos (qdot q0 q1)) = 0
  · rw [if_pos hs]
    have hsq : Real.sqrt (1 - qdot q0 q1 ^ 2) = 0 := by
      rwa [Real.sin_arccos] at hs
    have hle : 1 - qdot q0 q1 ^ 2 ≤ 0 := by
      by_contra hpos
      push_neg at hpos
      exact (Real.sqrt_pos.mpr hpos).ne' hsq
    have hcs : qdot q0 q1 ^ 2 ≤ 1 := by
      unfold unit_quat at h0 h1
      unfold qdot
      nlinarith [sq_nonneg (q0.x * q1.y - q0.y * q1.x),
        sq_nonneg (q0.x * q1.z - q0.z * q1.x),
        sq_nonneg (q0.x * q1.w - q0.w * q1.x),
        sq_nonneg (q0.y * q1.z - q0.z * q1.y),
        sq_nonneg (q0.y * q1.w - q0.w * q1.y),
        sq_nonneg (q0.z * q1.w - q0.w * q1.z)]
    have hsq1 : qdot q0 q1 ^ 2 = 1 := le_antisymm hcs (by linarith)
    have hd1 : qdot q0 q1 = 1 := by
      have hfac : (qdot q0 q1 - 1) * (qdot q0 q1 + 1) = 0 := by nlinarith
      rcases mul_eq_zero.mp hfac with hcase | hcase
      · linarith
      · exact absurd (by linarith : qdot q0 q1 = -1) hdot
    have key : ∀ a b : ℝ, (a - b) ^ 2 = 0 → a = b := by
      intro a b hab
      have := pow_eq_zero_iff (by norm_num : (2 : ℕ) ≠ 0) |>.mp hab
      linarith
    have hsum : (q0.x - q1.x) ^ 2 + (q0.y - q1.y) ^ 2 + (q0.z - q1.z) ^ 2 +
        (q0.w - q1.w) ^ 2 = 0 := by
      unfold unit_quat at h0 h1
      unfold qdot at hd1
      nlinarith
    have hx2 : (q0.x - q1.x) ^ 2 = 0 := by
      nlinarith [sq_nonneg (q0.y - q1.y), sq_nonneg (q0.z - q1.z),
        sq_nonneg (q0.w - q1.w)]
    have hy2 : (q0.y - q1.y) ^ 2 = 0 := by
      nlinarith [sq_nonneg (q0.x - q1.x), sq_nonneg (q0.z - q1.z),
        sq_nonneg (q0.w - q1.w)]
    have hz2 : (q0.z - q1.z) ^ 2 = 0 := by
      nlinarith [sq_nonneg (q0.x - q1.x), sq_nonneg (q0.y - q1.y),
        sq_nonneg (q0.w - q1.w)]
    have hw2 : (q0.w - q1.w) ^ 2 = 0 := by
      nlinarith [sq_nonneg (q0.x - q1.x), sq_nonneg (q0.y - q1.y),
        sq_nonneg (q0.z - q1.z)]
    exact Quat.ext (key _ _ hx2) (key _ _ hy2) (key _ _ hz2) (key _ _ hw2)
  · rw [if_neg hs]
    have hA : Real.sin (((1 : ℝ) - 1) * Real.arccos (qdot q0 q1)) /
        Real.sin (Real.arccos (qdot q0 q1)) = 0 := by
      rw [show ((1 : ℝ) - 1) = 0 by norm_num, zero_mul, Real.sin_zero, zero_div]
    have hB : Real.sin ((1 : ℝ) * Real.arccos (qdot q0 q1)) /
        Real.sin (Real.arccos (qdot q0 q1)) = 1 := by
      rw [one_mul, div_self hs]
    ext <;> simp [hA, hB, div_self hs]

/-- Claim C7: with `steps ≥ 2`, unit orientation quaternions (the spec's pose
invariant) and non-antipodal orientations, the interpolated Cartesian path of
`sim_move_end_effector_to_goal_pose` starts exactly at the start pose
(`t = 0`: lerp and slerp both return the start components) and ends exactly at
the goal pose (`t = 1`). -/
theorem sim_move_end_effector_interp_endpoints (startPose goal : Pose)
    (steps : ℕ) (h2 : 2 ≤ steps) (h0 : unit_quat startPose.orientation)
    (h1 : unit_quat goal.orientation)
    (hdot : qdot startPose.orientation goal.orientation ≠ -1) :
    (interp_poses startPose goal steps).head? = some startPose ∧
    (interp_poses startPose goal steps).getLast? = some goal := by
  obtain ⟨k, rfl⟩ : ∃ k, steps = k + 2 := ⟨steps - 2, by omega⟩
  constructor
  · unfold interp_poses linspace01
    rw [List.range_succ_eq_map]
    simp [zero_div, lerp_vec_zero, getQuaternionSlerp_zero]
  · unfold interp_poses linspace01
    rw [List.range_succ]
    have ht : ((k : ℝ) + 1) / ((k : ℝ) + 2 - 1) = 1 := by
      rw [show ((k : ℝ) + 2 - 1) = (k : ℝ) + 1 by ring]
      exact div_self (by positivity)
    simp [List.getLast?_concat, ht, lerp_vec_one,
      getQuaternionSlerp_one startPose.orientation goal.orientation h0 h1 hdot]

/-- Witness for C7 at `steps = 2` between the origin pose and `gEx`. -/
theorem sim_move_end_effector_interp_endpoints_witness :
    (interp_poses ⟨⟨0, 0, 0⟩, q_id⟩ gEx 2).head? = some ⟨⟨0, 0, 0⟩, q_id⟩ ∧
    (interp_poses ⟨⟨0, 0, 0⟩, q_id⟩ gEx 2).getLast? = some gEx :=
  sim_move_end_effector_interp_endpoints ⟨⟨0, 0, 0⟩, q_id⟩ gEx 2 (by norm_num)
    (by norm_num [unit_quat, q_id]) (by norm_num [unit_quat, gEx, q_id])
    (by norm_num [qdot, gEx, q_id])

/-- Claim C1, evaluated at the failing input: on an empty trajectory the loop
of `sim_execute_trajectory` issues no joint commands, but after the
unconditional `client.run(40)` the final check evaluates `trajectory[-1]`,
which raises `IndexError` on an empty list — the call does not complete
without error.  The error carries the events issued before the crash: a single
`client.run(40)` and no joint command. -/
theorem sim_execute_trajectory_empty_raises (thr : ℝ) (ep : Bool)
    (st : RobotState) :
    sim_execute_trajectory [] thr ep st = Except.error [Ev.runTicks 40] ∧
    List.countP isJointCmd [Ev.runTicks 40] = 0 :=
  ⟨rfl, rfl⟩

end BestmanSim
